import Mathlib

/-!
Verification development for the Kitty_containers runtime.

This file gives a shallow embedding, in Lean, of the parts of the Go source
that the specification's claims talk about:

* the container configuration model and `ValidateConfig`/`NewKitten`
  (`pkg/config.go`, container file),
* the parent-side container handle state machine `Start`/`Wait`/`Stop`
  and the accessors (`Kitten` file),
* the IP allocator `allocateIP` together with a model of Go's
  `net.ParseCIDR` restricted to IPv4 (the spec fixes the address family
  to IPv4),
* `shortID`/`createVethPair` name derivation at the byte level
  (Go strings are byte slices and the 15-byte kernel limit counts bytes),
* the child entry point's environment handling (`RunChild`),
* the orchestrator's dependency scan (`Manager.Start`) and the DFS
  post-order stop order (`Manager.getStopOrder`).

Side effects (syscalls, netlink, iptables, process spawning, clocks and
randomness) are modelled by explicit oracle parameters describing the
outcome of each external interaction; the Go functions' control flow over
those outcomes is translated verbatim.  Mutexes are not modelled: the
embedding gives the sequential semantics of each operation's body.
-/

namespace Kitty

/-! ## Data model (`pkg/config.go`) -/

/-- Container lifecycle states (`KittenState` constants). -/
inductive KittenState where
  | created
  | running
  | stopped
  | error
deriving DecidableEq, Repr

/-- `KittenState.String`. -/
def KittenState.str : KittenState → String
  | .created => "created"
  | .running => "running"
  | .stopped => "stopped"
  | .error => "error"

/-- The six namespace-enable booleans (`NamespaceConfig`). -/
structure NamespaceConfig where
  uts : Bool
  pid : Bool
  mount : Bool
  net : Bool
  ipc : Bool
  user : Bool
deriving DecidableEq, Repr

/-- One port mapping (`PortMapping`). Go uses `int` for the ports. -/
structure PortMapping where
  hostPort : Int
  containerPort : Int
  protocol : String
deriving DecidableEq, Repr

/-- Network attachment (`NetworkConfig`). -/
structure NetworkConfig where
  mode : String
  bridgeName : String
  containerIP : String
  gatewayIP : String
  subnet : String
  portMappings : List PortMapping
deriving DecidableEq, Repr

/-- One mount entry (`MountConfig`).  The Go field `Type` is a Lean keyword,
so it is called `fsType` here; `Flags` is a `uintptr` bitmask, modelled as a
natural number. -/
structure MountConfig where
  source : String
  target : String
  fsType : String
  flags : Nat
  data : String
deriving DecidableEq, Repr

/-- Container configuration (`KittenConfig`).  The Go field `Env` is a
`map[string]string`; it is modelled as an association list (theorems that
depend on map semantics assume the keys are duplicate-free, which holds for
every Go map). -/
structure KittenConfig where
  id : String
  rootFS : String
  command : List String
  args : List String
  hostname : String
  namespaces : NamespaceConfig
  network : Option NetworkConfig
  mounts : List MountConfig
  workingDir : String
  env : List (String × String)
deriving DecidableEq, Repr

/-- Outcome of `os.Stat` on a path: the file exists (with its directory
bit), does not exist, or `Stat` failed with some other error.  The
filesystem is external state, so it enters the model as an oracle
`String → StatResult`. -/
inductive StatResult where
  | statOk (isDir : Bool)
  | notExist
  | otherError
deriving DecidableEq, Repr

/-- Validation errors of `ValidateConfig`, one constructor per
`fmt.Errorf` site in the source. -/
inductive ConfigErr where
  | rootfsRequired
  | rootfsNotExist
  | rootfsStatError
  | rootfsNotDir
  | commandRequired
  | networkRequired
  | mountTargetRequired
deriving DecidableEq, Repr

/-- `ValidateConfig` (`pkg/config.go`): returns the first failing check, or
`none` for a valid config.  `stat` is the filesystem oracle. -/
def validateConfig (stat : String → StatResult) (config : KittenConfig) :
    Option ConfigErr :=
  if config.rootFS = "" then some .rootfsRequired
  else
    match stat config.rootFS with
    | .notExist => some .rootfsNotExist
    | .otherError => some .rootfsStatError
    | .statOk isDir =>
      if !isDir then some .rootfsNotDir
      else if config.command = [] then some .commandRequired
      else if config.namespaces.net && config.network = none then
        some .networkRequired
      else if config.mounts.any (fun m => m.target = "") then
        some .mountTargetRequired
      else none

/-! ## Container handle (`Kitten`) -/

/-- The parent-side handle.  `hasCmd` models whether the Go field `cmd`
(an `*exec.Cmd`) is non-nil; the `sync.Mutex` is not part of the state.
Times are abstract instants supplied by the oracles. -/
structure Kitten where
  id : String
  config : KittenConfig
  state : KittenState
  pid : Nat
  hasCmd : Bool
  exitCode : Int
  vethHost : String
  vethContainer : String
  containerIP : String
  startTime : Nat
  stopTime : Nat
deriving DecidableEq, Repr

/-- `NewKitten`: validate, generate an ID when none was supplied
(`GenerateID` draws from a random source, so the generated string enters as
the oracle `genID`), and build the handle in state `created`.  The zero
values of the remaining fields match Go's zero-initialised struct. -/
def newKitten (stat : String → StatResult) (genID : String)
    (config : KittenConfig) : Except ConfigErr Kitten :=
  match validateConfig stat config with
  | some e => .error e
  | none =>
    let newID := if config.id = "" then genID else config.id
    .ok { id := newID
          config := { config with id := newID }
          state := .created
          pid := 0
          hasCmd := false
          exitCode := 0
          vethHost := ""
          vethContainer := ""
          containerIP := ""
          startTime := 0
          stopTime := 0 }

/-- Errors returned by `Stop`, one per `fmt.Errorf` site. -/
inductive StopErr where
  | notRunning
  | noProcess
  | sigTermFailed
deriving DecidableEq, Repr

/-- `Stop` (sequential semantics of its body): refuse unless `running`,
refuse when there is no process, send SIGTERM (delivery outcome `sigOk`),
then — whether the child exited gracefully or was SIGKILLed after the 5 s
window — record `stopped` and the stop time and run `cleanup`.  `cleanup`
only removes iptables rules and the host veth; it writes no handle field,
so it is the identity on the modelled state. -/
def Kitten.stop (k : Kitten) (now : Nat) (sigOk : Bool) :
    Except StopErr Unit × Kitten :=
  if k.state ≠ .running then (.error .notRunning, k)
  else if !k.hasCmd then (.error .noProcess, k)
  else if !sigOk then (.error .sigTermFailed, k)
  else (.ok (), { k with state := .stopped, stopTime := now })

/-- Outcome of `cmd.Wait()` in the parent: the child exited normally, the
wait returned an `*exec.ExitError` carrying a code, or it failed with some
other error. -/
inductive WaitOutcome where
  | exitedOk
  | exitError (code : Int)
  | otherError
deriving DecidableEq, Repr

/-- Oracle for `Wait`: the reap outcome and the current time. -/
structure WaitEnv where
  outcome : WaitOutcome
  time : Nat
deriving DecidableEq, Repr

/-- `Wait`: refuse when the handle was never started (`cmd == nil`),
otherwise record `stopped`, the stop time, and the exit code (the
`ExitError` code, 0 on clean exit, 1 on any other wait failure), run
`cleanup` (no field writes), and return the exit code.  `none` models the
"kitten not started" error return. -/
def Kitten.wait (k : Kitten) (w : WaitEnv) : Option Int × Kitten :=
  if !k.hasCmd then (none, k)
  else
    let code : Int :=
      match w.outcome with
      | .exitedOk => 0
      | .exitError c => c
      | .otherError => 1
    (some code, { k with state := .stopped, stopTime := w.time, exitCode := code })

/-- `Manager.Status` classifies one handle: `"running"` iff the stored pid
is positive (`manager.go`, `Status`). -/
def statusOf (k : Kitten) : String :=
  if 0 < k.pid then "running" else "stopped"

/-! ## IP allocation (`allocateIP`) and `net.ParseCIDR` on IPv4

The spec fixes the address family to IPv4, so `net.ParseCIDR` is modelled
for dotted-quad CIDR strings only.  Addresses are 32-bit numbers. -/

/-- Decimal value of a digit string (assumes `isValidOctetStr`-checked
input). -/
def decVal (cs : List Char) : Nat :=
  cs.foldl (fun a c => a * 10 + (c.toNat - 48)) 0

/-- Go's IPv4 field parser: 1–3 decimal digits, no leading zero, value
at most 255. -/
def parseOctet (cs : List Char) : Option Nat :=
  if cs = [] ∨ 3 < cs.length then none
  else if !cs.all Char.isDigit then none
  else if 1 < cs.length ∧ cs.head? = some '0' then none
  else if decVal cs ≤ 255 then some (decVal cs) else none

/-- Split a character list at every occurrence of `sep`
(`strings.Split` semantics: the result is never empty and splitting the
empty string yields one empty field). -/
def splitOnChar (sep : Char) : List Char → List (List Char)
  | [] => [[]]
  | c :: rest =>
    if c = sep then [] :: splitOnChar sep rest
    else
      match splitOnChar sep rest with
      | s :: groups => (c :: s) :: groups
      | [] => [[c]]

/-- Parse a dotted-quad IPv4 address into its 32-bit value. -/
def parseIPv4 (cs : List Char) : Option Nat :=
  match (splitOnChar '.' cs).mapM parseOctet with
  | some [a, b, c, d] => some (((a * 256 + b) * 256 + c) * 256 + d)
  | _ => none

/-- Parse the prefix-length field of a CIDR: decimal, at most 32. -/
def parsePrefixLen (cs : List Char) : Option Nat :=
  if cs = [] ∨ 3 < cs.length then none
  else if !cs.all Char.isDigit then none
  else if decVal cs ≤ 32 then some (decVal cs) else none

/-- Mask a 32-bit address down to its network address for prefix length
`n`. -/
def maskIP (ip n : Nat) : Nat := ip / 2 ^ (32 - n) * 2 ^ (32 - n)

/-- `net.ParseCIDR` restricted to IPv4: returns the masked network base
and the prefix length (`ipnet.IP` and the mask), or `none` when the string
is not a valid IPv4 CIDR. -/
def parseCIDRv4 (s : String) : Option (Nat × Nat) :=
  match splitOnChar '/' s.data with
  | [addr, mask] => do
    let ip ← parseIPv4 addr
    let n ← parsePrefixLen mask
    pure (maskIP ip n, n)
  | _ => none

/-- Render a 32-bit value as a dotted quad (`net.IP.String` on a 4-byte
address). -/
def ipNumToStr (x : Nat) : String :=
  toString (x / 2 ^ 24 % 256) ++ "." ++ toString (x / 2 ^ 16 % 256) ++ "." ++
    toString (x / 2 ^ 8 % 256) ++ "." ++ toString (x % 256)

/-- Numeric value produced by `allocateIP` on a parsed subnet: the masked
base with its last byte replaced by the random draw `rand.Intn(253) + 2`
(the draw enters as the oracle `r`; `r % 253` is the value of
`rand.Intn(253)`). -/
def allocateIPNum (base r : Nat) : Nat :=
  base / 256 * 256 + (r % 253 + 2)

/-- `allocateIP`: parse the CIDR, overwrite byte 3 of the network base
with a random value in `[2, 254]`, and render; an unparsable subnet gives
the empty string (the parse error is swallowed). -/
def allocateIP (subnet : String) (r : Nat) : String :=
  match parseCIDRv4 subnet with
  | none => ""
  | some (base, _) => ipNumToStr (allocateIPNum base r)

/-- Address membership in the subnet `(base, n)`: agreement on the top `n`
bits. -/
def inSubnet (base n x : Nat) : Prop :=
  x / 2 ^ (32 - n) = base / 2 ^ (32 - n)

instance (base n x : Nat) : Decidable (inSubnet base n x) := by
  unfold inSubnet; infer_instance

/-- Broadcast address of the subnet `(base, n)`. -/
def broadcastAddr (base n : Nat) : Nat := base + 2 ^ (32 - n) - 1

/-! ## Veth naming (`shortID`, `createVethPair`) at the byte level

Go strings are byte slices: `strings.Split` splits at the byte `'_' = 95`
(never part of a multi-byte UTF-8 sequence), the slice `parts[1][:6]`
keeps the first six bytes, and the kernel's 15-character interface-name
limit counts bytes.  IDs are therefore modelled as byte lists here. -/

/-- `strings.Split(s, "_")` on bytes. -/
def splitUnderscore : List Nat → List (List Nat)
  | [] => [[]]
  | b :: rest =>
    if b = 95 then [] :: splitUnderscore rest
    else
      match splitUnderscore rest with
      | s :: groups => (b :: s) :: groups
      | [] => [[b]]

/-- `shortID`: the second `"_"`-separated field truncated to six bytes,
or the whole ID when it contains no underscore. -/
def shortIDBytes (id : List Nat) : List Nat :=
  match splitUnderscore id with
  | _ :: p :: _ => p.take 6
  | _ => id

/-- The bytes of `"veth"`. -/
def vethPrefixBytes : List Nat := [118, 101, 116, 104]

/-- The bytes of `"vethc"`. -/
def vethcPrefixBytes : List Nat := [118, 101, 116, 104, 99]

/-- The pair of interface names chosen by `createVethPair`:
`"veth" + shortID(id)` for the host side and `"vethc" + shortID(id)` for
the peer. -/
def createVethPairNames (id : List Nat) : List Nat × List Nat :=
  (vethPrefixBytes ++ shortIDBytes id, vethcPrefixBytes ++ shortIDBytes id)

/-- Character-level `shortID`, used where `Start` records the veth names
as strings (the IDs appearing in the claims are ASCII, where bytes and
characters coincide). -/
def shortIDStr (id : String) : String :=
  match splitOnChar '_' id.data with
  | _ :: p :: _ => String.mk (p.take 6)
  | _ => id

/-- Host-side veth name recorded by `Start`. -/
def vethHostName (id : String) : String := "veth" ++ shortIDStr id

/-- Container-side veth name recorded by `Start`. -/
def vethPeerName (id : String) : String := "vethc" ++ shortIDStr id

/-! ## `Start` (parent side) -/

/-- Error sites of `Start`, one constructor per `fmt.Errorf` return. -/
inductive StartErr where
  | alreadyStarted
  | vethPairFailed
  | rootfsMissing
  | spawnFailed
  | netSetupFailed
deriving DecidableEq, Repr

/-- Result of `Start`.  `panicked` models the nil-pointer dereference the
Go code performs when the Net namespace is enabled but `config.Network`
is nil (handles produced by `NewKitten` never reach it, because
`ValidateConfig` requires a network config whenever Net is enabled).
`deadlocked` models the post-spawn failure paths: there the source calls
`k.Stop()`, whose first statement re-locks the non-reentrant handle
mutex that `Start` holds for its entire body, so `Start` never returns;
the paired `Kitten` value records the fields as they stand at that
point. -/
inductive StartResult where
  | ok
  | panicked
  | deadlocked
  | error (e : StartErr)
deriving DecidableEq, Repr

/-- Oracle describing the outcomes of `Start`'s external interactions.
`netFinalizeOk` collapses the post-spawn network finalization sequence
(move veth into the child netns, rename to eth0, bring it up, configure
the host veth, add the address and default route, install the port
forwards): in the source each of those steps has the identical failure
handling, namely a `k.Stop()` call that deadlocks on the already-held
handle mutex. -/
structure StartEnv where
  vethOk : Bool
  rand : Nat
  rootfsPresent : Bool
  spawnOk : Bool
  spawnPid : Nat
  timeNow : Nat
  netFinalizeOk : Bool
deriving DecidableEq, Repr

/-- Second half of `Start`, from the rootfs existence check (which on
failure returns without cleanup) through spawning (`cleanup` on failure —
no field writes) to recording pid/state/start time and, with Net enabled,
the network finalization.  A finalization failure makes the source call
`k.Stop()` while `Start` still holds the handle's non-reentrant mutex:
`Stop`'s first statement re-locks it, so the goroutine deadlocks — no
signal is sent, the state stays `running`, and `Start` never returns its
error.  That outcome is the `deadlocked` result. -/
def Kitten.startSpawn (k : Kitten) (e : StartEnv) : StartResult × Kitten :=
  if !e.rootfsPresent then (.error .rootfsMissing, k)
  else if !e.spawnOk then (.error .spawnFailed, k)
  else
    let k2 := { k with pid := e.spawnPid, hasCmd := true, state := .running,
                       startTime := e.timeNow }
    if k2.config.namespaces.net && !e.netFinalizeOk then
      (.deadlocked, k2)
    else (.ok, k2)

/-- `Start` (sequential semantics of its body): refuse unless `created`;
with Net enabled create the veth pair, record both names and the freshly
allocated IP on the handle and in the config snapshot; then spawn the
child via the self re-exec and finish per `Kitten.startSpawn`.
JSON-marshalling the config cannot fail for this struct type, so the
marshal error branch is unreachable and not modelled. -/
def Kitten.start (k : Kitten) (e : StartEnv) : StartResult × Kitten :=
  if k.state ≠ .created then (.error .alreadyStarted, k)
  else if k.config.namespaces.net then
    match k.config.network with
    | none => (.panicked, k)
    | some nw =>
      if !e.vethOk then (.error .vethPairFailed, k)
      else
        let ip := allocateIP nw.subnet e.rand
        let k1 := { k with
          vethHost := vethHostName k.id
          vethContainer := vethPeerName k.id
          containerIP := ip
          config := { k.config with network := some { nw with containerIP := ip } } }
        k1.startSpawn e
  else k.startSpawn e

/-! ## Sample fixtures used by witnesses and counterexamples -/

/-- The default namespace mask of `NewDefaultConfig`. -/
def nsDefault : NamespaceConfig :=
  { uts := true, pid := true, mount := true, net := false, ipc := true,
    user := false }

/-- A bridge network attachment. -/
def sampleNet : NetworkConfig :=
  { mode := "bridge", bridgeName := "kitten0", containerIP := "",
    gatewayIP := "10.0.0.1", subnet := "10.0.0.0/24", portMappings := [] }

/-- A valid non-networked config. -/
def sampleConfig : KittenConfig :=
  { id := "kitten_abcdef1234", rootFS := "/opt/rootfs",
    command := ["/bin/echo"], args := [], hostname := "kitten",
    namespaces := nsDefault, network := none, mounts := [],
    workingDir := "/", env := [] }

/-- The handle `newKitten` builds from `sampleConfig`. -/
def sampleCreated : Kitten :=
  { id := "kitten_abcdef1234", config := sampleConfig, state := .created,
    pid := 0, hasCmd := false, exitCode := 0, vethHost := "",
    vethContainer := "", containerIP := "", startTime := 0, stopTime := 0 }

/-- A handle that has been started. -/
def sampleRunning : Kitten :=
  { sampleCreated with state := .running, pid := 42, hasCmd := true }

/-- An oracle under which every external interaction succeeds. -/
def sampleEnv : StartEnv :=
  { vethOk := true, rand := 0, rootfsPresent := true, spawnOk := true,
    spawnPid := 42, timeNow := 7, netFinalizeOk := true }

/-- `sampleConfig` with the Net namespace enabled and a network config. -/
def sampleNetConfig : KittenConfig :=
  { sampleConfig with namespaces := { nsDefault with net := true },
                      network := some sampleNet }

/-- A created handle for `sampleNetConfig`. -/
def sampleNetCreated : Kitten := { sampleCreated with config := sampleNetConfig }

/-- An oracle under which creating the veth pair fails. -/
def vethFailEnv : StartEnv := { sampleEnv with vethOk := false }

/-! ## Claims about the handle state machine -/

/-- Case analysis of `startSpawn` on handles in state `created`: success
ends in `running`; an error return precedes the spawn and leaves
`created`; a post-spawn network-finalization failure deadlocks inside
the nested `Stop` with the state left `running`; the `error` state is
never entered. -/
theorem startSpawn_state_cases (k : Kitten) (e : StartEnv)
    (h : k.state = .created) :
    ((k.startSpawn e).1 = .ok → (k.startSpawn e).2.state = .running) ∧
    (k.startSpawn e).2.state ≠ .error ∧
    (∀ err, (k.startSpawn e).1 = .error err →
      (k.startSpawn e).2.state = .created) ∧
    ((k.startSpawn e).1 = .deadlocked →
      (k.startSpawn e).2.state = .running) := by
  unfold Kitten.startSpawn
  split_ifs <;> simp_all
  split_ifs <;> simp_all

/-- Case analysis of `Start` on handles in state `created`. -/
theorem start_state_cases (k : Kitten) (e : StartEnv)
    (h : k.state = .created) :
    ((k.start e).1 = .ok → (k.start e).2.state = .running) ∧
    (k.start e).2.state ≠ .error ∧
    (∀ err, (k.start e).1 = .error err → (k.start e).2.state = .created) ∧
    ((k.start e).1 = .deadlocked → (k.start e).2.state = .running) := by
  unfold Kitten.start
  have hne : ¬ k.state ≠ KittenState.created := by simp [h]
  simp only [if_neg hne]
  split
  · split
    · simp [h]
    · split
      · simp [h]
      · exact startSpawn_state_cases _ e (by simpa using h)
  · exact startSpawn_state_cases k e h

/-- Claim C1 (amended): a handle built by `NewKitten` starts in state
`created`; from `created`, `Wait` and `Stop` refuse and leave the handle
unchanged, so `Start` is the only transition out; `Start` moves the
handle to `running` on success, and on failure the state is never
`error`: every failure `Start` actually reports precedes the child spawn
and leaves the state `created`, while a post-spawn network-finalization
failure invokes `Stop` on the non-reentrant mutex `Start` already holds,
deadlocking with the state left `running` and `Start` never returning.
The source defines `StateError` but never assigns it. -/
theorem newKitten_lifecycle (stat : String → StatResult) (genID : String)
    (cfg : KittenConfig) (k0 : Kitten) (e : StartEnv) (w : WaitEnv)
    (now : Nat) (sigOk : Bool)
    (hnew : newKitten stat genID cfg = .ok k0) :
    k0.state = .created ∧
    (k0.wait w).2 = k0 ∧
    (k0.stop now sigOk).2 = k0 ∧
    ((k0.start e).1 = .ok → (k0.start e).2.state = .running) ∧
    (k0.start e).2.state ≠ .error ∧
    (∀ err, (k0.start e).1 = .error err → (k0.start e).2.state = .created) ∧
    ((k0.start e).1 = .deadlocked → (k0.start e).2.state = .running) := by
  have hk : k0.state = .created ∧ k0.hasCmd = false := by
    unfold newKitten at hnew
    split at hnew
    · exact absurd hnew (by simp)
    · cases hnew; exact ⟨rfl, rfl⟩
  have hw : (k0.wait w).2 = k0 := by
    unfold Kitten.wait; simp [hk.2]
  have hs : (k0.stop now sigOk).2 = k0 := by
    unfold Kitten.stop; simp [hk.1]
  have hc := start_state_cases k0 e hk.1
  exact ⟨hk.1, hw, hs, hc.1, hc.2.1, hc.2.2.1, hc.2.2.2⟩

/-- Witness for `newKitten_lifecycle` at a concrete config and oracle. -/
theorem newKitten_lifecycle_witness :
    sampleCreated.state = .created ∧
    (sampleCreated.start sampleEnv).1 = .ok ∧
    (sampleCreated.start sampleEnv).2.state = .running := by
  have h := newKitten_lifecycle (fun _ => .statOk true) "kitten_x"
    sampleConfig sampleCreated sampleEnv ⟨.exitedOk, 9⟩ 3 true rfl
  exact ⟨h.1, by decide, h.2.2.2.1 (by decide)⟩

/-- Counterexample to claim C1 as stated: on this concrete handle `Start`
fails (the veth pair cannot be created) yet the resulting state is
`created`, not the claimed terminal `error` state — the source never
assigns `StateError`. -/
theorem start_failure_not_error_state :
    (sampleNetCreated.start vethFailEnv).1 = .error .vethPairFailed ∧
    (sampleNetCreated.start vethFailEnv).2.state = .created ∧
    (sampleNetCreated.start vethFailEnv).2.state ≠ .error := by decide

/-- Claim C2: `Start` on a handle whose state is not `created` fails with
the AlreadyStarted error, `Stop` on a handle whose state is not `running`
fails with the NotRunning error, and in both refusal cases the handle is
returned entirely unchanged. -/
theorem start_stop_refusals (k k' : Kitten) (e : StartEnv) (now : Nat)
    (sigOk : Bool) (h : k.state ≠ .created) (h' : k'.state ≠ .running) :
    k.start e = (.error .alreadyStarted, k) ∧
    k'.stop now sigOk = (.error .notRunning, k') := by
  constructor
  · unfold Kitten.start; simp [h]
  · unfold Kitten.stop; simp [h']

/-- Witness for `start_stop_refusals`: a running handle refuses `Start`
and a created handle refuses `Stop`, both unchanged. -/
theorem start_stop_refusals_witness :
    sampleRunning.start sampleEnv = (.error .alreadyStarted, sampleRunning) ∧
    sampleCreated.stop 3 true = (.error .notRunning, sampleCreated) :=
  start_stop_refusals sampleRunning sampleCreated sampleEnv 3 true
    (by decide) (by decide)

/-- Claim C9: neither `Wait` nor `Stop` writes the stored pid; a running
handle with a positive pid that is reaped by `Wait` ends in state
`stopped` with its pid intact, and `Manager.Status` therefore still
classifies it as `"running"`. -/
theorem pid_survives_wait_and_stop (k : Kitten) (w : WaitEnv) (now : Nat)
    (sigOk : Bool) (hcmd : k.hasCmd = true) (hpid : 0 < k.pid) :
    (k.wait w).2.pid = k.pid ∧
    (k.stop now sigOk).2.pid = k.pid ∧
    (k.wait w).2.state = .stopped ∧
    statusOf (k.wait w).2 = "running" := by
  unfold Kitten.wait Kitten.stop statusOf
  split_ifs <;> simp_all

/-- Witness for `pid_survives_wait_and_stop` on a concrete running
handle. -/
theorem pid_survives_wait_and_stop_witness :
    (sampleRunning.wait ⟨.exitedOk, 9⟩).2.pid = sampleRunning.pid ∧
    (sampleRunning.stop 9 true).2.pid = sampleRunning.pid ∧
    (sampleRunning.wait ⟨.exitedOk, 9⟩).2.state = .stopped ∧
    statusOf (sampleRunning.wait ⟨.exitedOk, 9⟩).2 = "running" :=
  pid_survives_wait_and_stop sampleRunning ⟨.exitedOk, 9⟩ 9 true
    (by decide) (by decide)

/-- Claim C10: a subnet string that does not parse as an IPv4 CIDR makes
`allocateIP` return the empty string instead of an error, and `Start`
records that empty string as the handle's container IP and proceeds to
`running`. -/
theorem invalid_subnet_allocates_empty (k : Kitten) (e : StartEnv)
    (nw : NetworkConfig) (hst : k.state = .created)
    (hnet : k.config.namespaces.net = true) (hw : k.config.network = some nw)
    (hp : parseCIDRv4 nw.subnet = none) (hv : e.vethOk = true)
    (hr : e.rootfsPresent = true) (hs : e.spawnOk = true)
    (hf : e.netFinalizeOk = true) :
    (∀ s r, parseCIDRv4 s = none → allocateIP s r = "") ∧
    (k.start e).1 = .ok ∧
    (k.start e).2.containerIP = "" ∧
    (k.start e).2.state = .running := by
  have halloc : ∀ s r, parseCIDRv4 s = none → allocateIP s r = "" := by
    intro s r hnone
    unfold allocateIP
    simp [hnone]
  refine ⟨halloc, ?_⟩
  unfold Kitten.start Kitten.startSpawn
  simp [hst, hnet, hw, hv, hr, hs, hf, halloc nw.subnet e.rand hp]

/-- An invalid subnet string in an otherwise valid network config. -/
def badSubnetConfig : KittenConfig :=
  { sampleNetConfig with
    network := some { sampleNet with subnet := "not-a-cidr" } }

/-- A created handle for `badSubnetConfig`. -/
def badSubnetCreated : Kitten := { sampleCreated with config := badSubnetConfig }

/-- Witness for `invalid_subnet_allocates_empty` on a concrete handle. -/
theorem invalid_subnet_allocates_empty_witness :
    allocateIP "not-a-cidr" 0 = "" ∧
    (badSubnetCreated.start sampleEnv).1 = .ok ∧
    (badSubnetCreated.start sampleEnv).2.containerIP = "" ∧
    (badSubnetCreated.start sampleEnv).2.state = .running := by
  have h := invalid_subnet_allocates_empty badSubnetCreated sampleEnv
    { sampleNet with subnet := "not-a-cidr" }
    (by decide) (by decide) (by decide) (by decide) (by decide) (by decide)
    (by decide) (by decide)
  exact ⟨h.1 "not-a-cidr" 0 (by decide), h.2.1, h.2.2.1, h.2.2.2⟩

/-! ## Claim C3: the IP allocator -/

/-- The base returned by `parseCIDRv4` is masked (its low `32 - n` bits
are zero) and the prefix length is at most 32. -/
theorem parseCIDRv4_masked (s : String) (base n : Nat)
    (hp : parseCIDRv4 s = some (base, n)) :
    base % 2 ^ (32 - n) = 0 ∧ n ≤ 32 := by
  unfold parseCIDRv4 at hp
  split at hp
  · next addr mask _ =>
    cases hip : parseIPv4 addr with
    | none => simp [hip] at hp
    | some ip =>
      cases hn : parsePrefixLen mask with
      | none => simp [hip, hn] at hp
      | some m =>
        simp only [hip, hn, Option.bind_eq_bind, Option.some_bind,
          Option.pure_def, Option.some.injEq, Prod.mk.injEq] at hp
        obtain ⟨hb, hm⟩ := hp
        subst hm
        constructor
        · rw [← hb]; exact Nat.mul_mod_left _ _
        · unfold parsePrefixLen at hn
          split_ifs at hn with h1 h2 h3
          simp_all
  · exact absurd hp (by simp)

/-- Claim C3 (amended): for every subnet string that parses as a valid
IPv4 CIDR **with prefix length at most 24**, `allocateIP` returns the
address `base + (r % 253 + 2)` rendered in dotted form; that address lies
inside the subnet, its last octet lies in `[2, 254]`, and it is neither
the network address nor the broadcast address.  (For longer prefixes the
allocator writes byte 3 without regard to the mask, and the result can
escape the subnet — see the counterexample.) -/
theorem allocateIP_in_subnet (s : String) (r base n : Nat)
    (hp : parseCIDRv4 s = some (base, n)) (hn : n ≤ 24) :
    allocateIP s r = ipNumToStr (allocateIPNum base r) ∧
    inSubnet base n (allocateIPNum base r) ∧
    2 ≤ allocateIPNum base r % 256 ∧ allocateIPNum base r % 256 ≤ 254 ∧
    allocateIPNum base r ≠ base ∧
    allocateIPNum base r ≠ broadcastAddr base n := by
  obtain ⟨hmask, -⟩ := parseCIDRv4_masked s base n hp
  set K : Nat := 2 ^ (32 - n) with hK
  have h8 : (8 : Nat) ≤ 32 - n := by omega
  have hK256 : (256 : Nat) ≤ K := by
    calc (256 : Nat) = 2 ^ 8 := by norm_num
    _ ≤ 2 ^ (32 - n) := Nat.pow_le_pow_right (by norm_num) h8
  have hKpos : 0 < K := by positivity
  have hdvdK : (256 : Nat) ∣ K := by
    refine ⟨2 ^ (32 - n - 8), ?_⟩
    rw [hK, show (256 : Nat) = 2 ^ 8 by norm_num, ← pow_add]
    congr 1
    omega
  have hdvd : (256 : Nat) ∣ base :=
    dvd_trans hdvdK (Nat.dvd_of_mod_eq_zero hmask)
  set v : Nat := r % 253 + 2 with hv
  have hv2 : 2 ≤ v := Nat.le_add_left 2 (r % 253)
  have hv254 : v ≤ 254 := by
    have : r % 253 < 253 := Nat.mod_lt _ (by norm_num)
    omega
  have hbase : base / 256 * 256 = base := Nat.div_mul_cancel hdvd
  have hsum : allocateIPNum base r = base + v := by
    unfold allocateIPNum; rw [hbase]
  have hmod : allocateIPNum base r % 256 = v := by
    obtain ⟨t, ht⟩ := hdvd
    rw [hsum, ht, Nat.mul_add_mod, Nat.mod_eq_of_lt (by omega)]
  refine ⟨?_, ?_, ?_, ?_, ?_, ?_⟩
  · unfold allocateIP
    rw [hp]
  · unfold inSubnet
    rw [hsum, ← hK]
    obtain ⟨m, hm⟩ := Nat.dvd_of_mod_eq_zero hmask
    rw [hm, Nat.mul_add_div hKpos, Nat.div_eq_of_lt (by omega),
      Nat.mul_div_cancel_left _ hKpos]
    omega
  · rw [hmod]; exact hv2
  · rw [hmod]; exact hv254
  · rw [hsum]; omega
  · rw [hsum]; unfold broadcastAddr
    rw [← hK]; omega

/-- Witness for `allocateIP_in_subnet` on the standard `/24` subnet. -/
theorem allocateIP_in_subnet_witness :
    allocateIP "10.0.0.0/24" 5 = ipNumToStr (allocateIPNum 167772160 5) ∧
    inSubnet 167772160 24 (allocateIPNum 167772160 5) ∧
    2 ≤ allocateIPNum 167772160 5 % 256 ∧
    allocateIPNum 167772160 5 % 256 ≤ 254 ∧
    allocateIPNum 167772160 5 ≠ 167772160 ∧
    allocateIPNum 167772160 5 ≠ broadcastAddr 167772160 24 :=
  allocateIP_in_subnet "10.0.0.0/24" 5 167772160 24 (by decide) (by decide)

/-- Counterexample to claim C3 as stated: on the valid IPv4 CIDR
`10.0.0.0/30` the draw `r = 2` makes `allocateIP` return `10.0.0.4`,
which lies outside the subnet (and in particular `r` can also produce the
broadcast address `10.0.0.3`). -/
theorem allocateIP_escapes_small_subnet :
    parseCIDRv4 "10.0.0.0/30" = some (167772160, 30) ∧
    allocateIP "10.0.0.0/30" 2 = "10.0.0.4" ∧
    allocateIPNum 167772160 2 = 167772164 ∧
    ¬ inSubnet 167772160 30 167772164 ∧
    allocateIP "10.0.0.0/30" 1 = "10.0.0.3" ∧
    broadcastAddr 167772160 30 = 167772163 := by decide

/-! ## Claim C6: `NewKitten` validation -/

/-- `validateConfig` accepts exactly the configs satisfying the five
checks of the source: non-empty rootfs, rootfs stats as a directory,
non-empty command, a network config whenever Net is enabled (this
direction only), and no mount with an empty target. -/
theorem validateConfig_none_iff (stat : String → StatResult)
    (cfg : KittenConfig) :
    validateConfig stat cfg = none ↔
      (cfg.rootFS ≠ "" ∧ stat cfg.rootFS = .statOk true ∧
       cfg.command ≠ [] ∧
       (cfg.namespaces.net = true → cfg.network ≠ none) ∧
       ∀ m ∈ cfg.mounts, m.target ≠ "") := by
  unfold validateConfig
  by_cases h1 : cfg.rootFS = ""
  · simp [h1]
  · rw [if_neg h1]
    cases hstat : stat cfg.rootFS with
    | notExist => simp [h1]
    | otherError => simp [h1]
    | statOk isDir =>
      cases isDir with
      | false => simp [h1]
      | true =>
        simp only [Bool.not_true, if_false]
        split_ifs with h2 h3 h4 <;>
          simp_all [List.any_eq_true, decide_eq_true_eq]

/-- Claim C6 (amended): `NewKitten` returns a handle exactly for the
configs passing the validation rules — where the network rule is the
implication "Net enabled requires a network config", not the biconditional
"network config present iff Net enabled" — and on success the handle is in
state `created` with a generated ID when none was supplied. -/
theorem newKitten_accepts_iff (stat : String → StatResult) (genID : String)
    (cfg : KittenConfig) :
    ((∃ k, newKitten stat genID cfg = .ok k) ↔
      (cfg.rootFS ≠ "" ∧ stat cfg.rootFS = .statOk true ∧
       cfg.command ≠ [] ∧
       (cfg.namespaces.net = true → cfg.network ≠ none) ∧
       ∀ m ∈ cfg.mounts, m.target ≠ "")) ∧
    (∀ k, newKitten stat genID cfg = .ok k →
      k.state = .created ∧ k.id = (if cfg.id = "" then genID else cfg.id)) := by
  constructor
  · rw [← validateConfig_none_iff stat cfg]
    unfold newKitten
    constructor
    · rintro ⟨k, hk⟩
      split at hk
      · exact absurd hk (by simp)
      · assumption
    · intro hv
      rw [hv]
      exact ⟨_, rfl⟩
  · intro k hk
    unfold newKitten at hk
    split at hk
    · exact absurd hk (by simp)
    · cases hk
      exact ⟨rfl, rfl⟩

/-- A config with the Net namespace disabled but a network config
present. -/
def netlessWithNetworkConfig : KittenConfig :=
  { sampleConfig with network := some sampleNet }

/-- The handle `newKitten` builds from `netlessWithNetworkConfig`. -/
def netlessWithNetworkKitten : Kitten :=
  { sampleCreated with config := netlessWithNetworkConfig }

/-- Counterexample to claim C6 as stated: this config violates "network
config present iff Net enabled" (network present, Net disabled), yet
`NewKitten` accepts it — the source only checks the "Net enabled requires
network" direction. -/
theorem newKitten_accepts_network_without_net :
    newKitten (fun _ => .statOk true) "kitten_genid"
      netlessWithNetworkConfig = .ok netlessWithNetworkKitten ∧
    netlessWithNetworkConfig.network ≠ none ∧
    netlessWithNetworkConfig.namespaces.net = false :=
  ⟨rfl, by decide, by decide⟩

/-! ## Claim C7: veth pair names -/

/-- `splitUnderscore` never returns the empty list. -/
theorem splitUnderscore_ne_nil (bs : List Nat) : splitUnderscore bs ≠ [] := by
  induction bs with
  | nil => simp [splitUnderscore]
  | cons b rest ih =>
    unfold splitUnderscore
    split_ifs
    · simp
    · cases h : splitUnderscore rest with
      | nil => exact absurd h ih
      | cons s groups => simp [h]

/-- An ID containing the underscore byte splits into at least two
fields. -/
theorem splitUnderscore_two_fields (bs : List Nat) (h : 95 ∈ bs) :
    ∃ pre seg groups, splitUnderscore bs = pre :: seg :: groups := by
  induction bs with
  | nil => cases h
  | cons b rest ih =>
    unfold splitUnderscore
    by_cases hb : b = 95
    · simp only [if_pos hb]
      cases hsp : splitUnderscore rest with
      | nil => exact absurd hsp (splitUnderscore_ne_nil rest)
      | cons s groups => exact ⟨[], s, groups, rfl⟩
    · have hrest : 95 ∈ rest := by
        cases h with
        | head => exact absurd rfl hb
        | tail _ h2 => exact h2
      obtain ⟨pre, seg, groups, hsp⟩ := ih hrest
      simp only [if_neg hb, hsp]
      exact ⟨b :: pre, seg, groups, rfl⟩

/-- Claim C7 (amended): for every container ID that contains an
underscore, the veth pair names are `"veth"` and `"vethc"` followed by
the first six bytes of the field between the first and second underscore,
and both names fit in 15 bytes.  (An ID with no underscore is used whole
by `shortID` and the bound can fail — see the counterexample.) -/
theorem veth_names_within_limit (id : List Nat) (h : 95 ∈ id) :
    ∃ pre seg groups,
      splitUnderscore id = pre :: seg :: groups ∧
      createVethPairNames id =
        (vethPrefixBytes ++ seg.take 6, vethcPrefixBytes ++ seg.take 6) ∧
      (createVethPairNames id).1.length ≤ 15 ∧
      (createVethPairNames id).2.length ≤ 15 := by
  obtain ⟨pre, seg, groups, hsp⟩ := splitUnderscore_two_fields id h
  have hshort : shortIDBytes id = seg.take 6 := by
    unfold shortIDBytes
    rw [hsp]
  have htake : (seg.take 6).length ≤ 6 := by
    simp [List.length_take]
  refine ⟨pre, seg, groups, hsp, ?_, ?_, ?_⟩
  · unfold createVethPairNames
    rw [hshort]
  · unfold createVethPairNames
    simp only [List.length_append, hshort]
    simpa [vethPrefixBytes] using by omega
  · unfold createVethPairNames
    simp only [List.length_append, hshort]
    simpa [vethcPrefixBytes] using by omega

/-- Witness for `veth_names_within_limit` at the byte string
`"kitten_ab12cd34"`. -/
theorem veth_names_within_limit_witness :
    ∃ pre seg groups,
      splitUnderscore
          [107, 105, 116, 116, 101, 110, 95, 97, 98, 49, 50, 99, 100, 51, 52] =
        pre :: seg :: groups ∧
      createVethPairNames
          [107, 105, 116, 116, 101, 110, 95, 97, 98, 49, 50, 99, 100, 51, 52] =
        (vethPrefixBytes ++ seg.take 6, vethcPrefixBytes ++ seg.take 6) ∧
      (createVethPairNames
          [107, 105, 116, 116, 101, 110, 95, 97, 98, 49, 50, 99, 100, 51, 52]).1.length ≤ 15 ∧
      (createVethPairNames
          [107, 105, 116, 116, 101, 110, 95, 97, 98, 49, 50, 99, 100, 51, 52]).2.length ≤ 15 :=
  veth_names_within_limit _ (by decide)

/-- Counterexample to claim C7 as stated: the eleven-byte ID
`"abcdefghijk"` contains no underscore, so `shortID` falls back to the
whole ID and the peer name `"vethc" + id` is 16 bytes, over the 15-byte
kernel limit. -/
theorem veth_peer_name_exceeds_limit :
    (createVethPairNames
        [97, 98, 99, 100, 101, 102, 103, 104, 105, 106, 107]).2.length = 16 ∧
    ¬ (createVethPairNames
        [97, 98, 99, 100, 101, 102, 103, 104, 105, 106, 107]).2.length ≤ 15 := by
  decide

/-! ## Claim C8: child environment defaults (`RunChild`) -/

/-- The default PATH installed by the child when PATH is unset. -/
def defaultPathValue : String :=
  "/usr/local/sbin:/usr/local/bin:/usr/sbin:/usr/bin:/sbin:/bin"

/-- `os.Setenv` on the process environment (an unset variable reads as
`""`, exactly as Go's `os.Getenv` reports it). -/
def setEnvVar (e : String → String) (key v : String) : String → String :=
  fun x => if x = key then v else e x

/-- Apply the config's environment mapping with `os.Setenv`, in mapping
order. -/
def applyEnvList (e : String → String) (l : List (String × String)) :
    String → String :=
  l.foldl (fun acc p => setEnvVar acc p.1 p.2) e

/-- The default-installation step of `RunChild`: add PATH and HOME
defaults when (and only when) `os.Getenv` reads them as empty. -/
def childFinalizeEnv (e : String → String) : String → String :=
  let e1 := if e "PATH" = "" then setEnvVar e "PATH" defaultPathValue else e
  if e1 "HOME" = "" then setEnvVar e1 "HOME" "/root" else e1

/-- The child's environment after applying the config mapping on top of
the inherited environment `e0` and installing the defaults. -/
def runChildEnv (e0 : String → String) (cfgEnv : List (String × String)) :
    String → String :=
  childFinalizeEnv (applyEnvList e0 cfgEnv)

/-- A variable not named by the mapping keeps its inherited value. -/
theorem applyEnvList_not_mem (e : String → String)
    (l : List (String × String)) (key : String)
    (h : key ∉ l.map Prod.fst) : applyEnvList e l key = e key := by
  induction l generalizing e with
  | nil => rfl
  | cons p rest ih =>
    have hk : key ≠ p.1 := by
      intro hek
      exact h (by simp [hek])
    have hrest : key ∉ rest.map Prod.fst := by
      intro hr
      exact h (by simp [hr])
    unfold applyEnvList at *
    rw [List.foldl_cons, ih _ hrest]
    simp [setEnvVar, hk]

/-- With duplicate-free keys (every Go map), a mapped variable reads back
its mapped value. -/
theorem applyEnvList_mem (e : String → String) (l : List (String × String))
    (key v : String) (hnd : (l.map Prod.fst).Nodup) (h : (key, v) ∈ l) :
    applyEnvList e l key = v := by
  revert hnd h
  induction l generalizing e with
  | nil => intro hnd h; cases h
  | cons p rest ih =>
    intro hnd h
    have hnd2 : (rest.map Prod.fst).Nodup := (List.nodup_cons.mp hnd).2
    cases h with
    | head =>
      have hk : key ∉ rest.map Prod.fst := (List.nodup_cons.mp hnd).1
      unfold applyEnvList
      rw [List.foldl_cons]
      have hstep := applyEnvList_not_mem (setEnvVar e key v) rest key hk
      unfold applyEnvList at hstep
      rw [hstep]
      simp [setEnvVar]
    | tail _ h2 =>
      unfold applyEnvList
      rw [List.foldl_cons]
      exact ih _ hnd2 h2

/-- The PATH read back after the default-installation step. -/
theorem childFinalizeEnv_path (e : String → String) :
    childFinalizeEnv e "PATH" =
      if e "PATH" = "" then defaultPathValue else e "PATH" := by
  unfold childFinalizeEnv
  split_ifs with h1 h2 h3 <;> simp_all [setEnvVar]

/-- The HOME read back after the default-installation step. -/
theorem childFinalizeEnv_home (e : String → String) :
    childFinalizeEnv e "HOME" =
      if e "HOME" = "" then "/root" else e "HOME" := by
  unfold childFinalizeEnv
  split_ifs with h1 h2 h3 <;> simp_all [setEnvVar]

/-- Claim C8 (amended): after the config's environment mapping is
applied, a non-empty PATH or HOME value supplied by the mapping is
never overwritten by the default, and the defaults are installed exactly
when the variable reads back empty (Go's `os.Getenv` cannot distinguish
an unset variable from one set to the empty string, so a mapped empty
value is overwritten — see the counterexample). -/
theorem child_env_defaults (e0 : String → String)
    (cfgEnv : List (String × String)) (v : String)
    (hnd : (cfgEnv.map Prod.fst).Nodup) :
    (("PATH", v) ∈ cfgEnv → v ≠ "" → runChildEnv e0 cfgEnv "PATH" = v) ∧
    (("HOME", v) ∈ cfgEnv → v ≠ "" → runChildEnv e0 cfgEnv "HOME" = v) ∧
    (applyEnvList e0 cfgEnv "PATH" = "" →
      runChildEnv e0 cfgEnv "PATH" = defaultPathValue) ∧
    (applyEnvList e0 cfgEnv "HOME" = "" →
      runChildEnv e0 cfgEnv "HOME" = "/root") := by
  refine ⟨?_, ?_, ?_, ?_⟩
  · intro hmem hv
    have hval : applyEnvList e0 cfgEnv "PATH" = v :=
      applyEnvList_mem e0 cfgEnv _ _ hnd hmem
    unfold runChildEnv
    rw [childFinalizeEnv_path, hval, if_neg hv]
  · intro hmem hv
    have hval : applyEnvList e0 cfgEnv "HOME" = v :=
      applyEnvList_mem e0 cfgEnv _ _ hnd hmem
    unfold runChildEnv
    rw [childFinalizeEnv_home, hval, if_neg hv]
  · intro hempty
    unfold runChildEnv
    rw [childFinalizeEnv_path, if_pos hempty]
  · intro hempty
    unfold runChildEnv
    rw [childFinalizeEnv_home, if_pos hempty]

/-- Witness for `child_env_defaults`: a config-supplied non-empty PATH
survives, and on an empty environment the HOME default is installed. -/
theorem child_env_defaults_witness :
    runChildEnv (fun _ => "") [("PATH", "/custom/bin")] "PATH" = "/custom/bin" ∧
    runChildEnv (fun _ => "") [("PATH", "/custom/bin")] "HOME" = "/root" := by
  have h := child_env_defaults (fun _ => "") [("PATH", "/custom/bin")]
    "/custom/bin" (by decide)
  exact ⟨h.1 (by decide) (by decide), h.2.2.2 (by decide)⟩

/-- Counterexample to claim C8 as stated: the mapping supplies
`PATH = ""`, yet the child overwrites it with the default, because the
emptiness check cannot tell a supplied empty value from an unset
variable. -/
theorem child_env_overwrites_empty_path :
    runChildEnv (fun _ => "") [("PATH", "")] "PATH" = defaultPathValue ∧
    defaultPathValue ≠ "" := by decide

/-! ## Orchestrator (`Manager.Start` and `Manager.Stop`)

For the dependency claims only the container names and their `depends_on`
lists matter.  A deployment is modelled as the association list
name ↦ dependency list (the Go `map[string]ContainerSpec`, whose keys are
unique; the list order stands for the map's iteration order).  Container
starts themselves and network creation are modelled as succeeding: the
claims under verification are about the dependency scan. -/

/-- A deployment restricted to its dependency structure. -/
abbrev Deployment := List (String × List String)

/-- The declared container names. -/
def keysOf (cs : Deployment) : List String := cs.map Prod.fst

/-- Go map lookup of a container's `depends_on` list. -/
def lookupDeps : Deployment → String → Option (List String)
  | [], _ => none
  | (k, ds) :: rest, n => if k = n then some ds else lookupDeps rest n

/-- The dependency list of `n` (empty for undeclared names, matching the
Go `deps[name]` zero value). -/
def depsOf (cs : Deployment) (n : String) : List String :=
  (lookupDeps cs n).getD []

/-- One pass of `Manager.Start`'s repeated scan, in map-iteration order:
collect, in order, every not-yet-started container whose dependencies are
all already started (the Go code marks a container started immediately,
so later containers in the same pass see earlier ones). -/
def scanPassGo (started : List String) :
    List (String × List String) → List String → List String
  | [], acc => acc
  | (n, ds) :: rest, acc =>
    if n ∈ started ++ acc then scanPassGo started rest acc
    else if ds.all (fun d => decide (d ∈ started ++ acc)) then
      scanPassGo started rest (acc ++ [n])
    else scanPassGo started rest acc

/-- The containers newly started by one scan over the whole deployment. -/
def scanPass (cs : Deployment) (started : List String) : List String :=
  scanPassGo started cs []

/-- The error of `Manager.Start`'s stalled scan. -/
inductive MgrErr where
  | circularOrMissingDependency
deriving DecidableEq, Repr

/-- The scan loop of `Manager.Start`: while not every container is
started, run a pass; a pass that starts nothing fails with
`CircularOrMissingDependency`.  The loop returns the start order.  `fuel`
only bounds the number of passes: each productive pass starts at least
one container, so `cs.length + 1` passes always suffice and the zero-fuel
branch is unreachable from `managerStart`. -/
def managerStartLoop (cs : Deployment) :
    Nat → List String → Option MgrErr × List String
  | 0, started => (none, started)
  | fuel + 1, started =>
    if cs.length ≤ started.length then (none, started)
    else
      match scanPass cs started with
      | [] => (some .circularOrMissingDependency, started)
      | n :: more => managerStartLoop cs fuel (started ++ n :: more)

/-- `Manager.Start` restricted to its dependency scan: `(none, order)` when
every container was started, in `order`; `(some err, order)` when the scan
stalled after starting only the containers in `order`. -/
def managerStart (cs : Deployment) : Option MgrErr × List String :=
  managerStartLoop cs (cs.length + 1) []

/-- Containers that the repeated scan can ever start: declared, with all
dependencies themselves startable.  This is the least fixed point the
scan climbs towards. -/
inductive Startable (cs : Deployment) : String → Prop
  | intro (n : String) (hk : n ∈ keysOf cs)
      (hdeps : ∀ d ∈ depsOf cs n, Startable cs d) : Startable cs n

/-- Dependency paths: `DepPath cs a b` holds when `b` is reachable from
`a` by following `depends_on` edges (at least one edge). -/
inductive DepPath (cs : Deployment) : String → String → Prop
  | single {n d : String} (h : d ∈ depsOf cs n) : DepPath cs n d
  | head {n d m : String} (h : d ∈ depsOf cs n) (p : DepPath cs d m) :
      DepPath cs n m

/-- The dependency graph has a cycle. -/
def HasCycle (cs : Deployment) : Prop := ∃ n, DepPath cs n n

/-- Some declared container depends on an undeclared name. -/
def HasMissingDep (cs : Deployment) : Prop :=
  ∃ n ∈ keysOf cs, ∃ d ∈ depsOf cs n, d ∉ keysOf cs

/-- A successful lookup means the name is declared. -/
theorem lookupDeps_some_mem_keys (cs : Deployment) (n : String)
    (ds : List String) (h : lookupDeps cs n = some ds) : n ∈ keysOf cs := by
  induction cs with
  | nil => cases h
  | cons p rest ih =>
    unfold lookupDeps at h
    split_ifs at h with hk
    · simp [keysOf, ← hk]
    · have := ih h
      simp only [keysOf, List.map_cons, List.mem_cons]
      exact Or.inr (by simpa [keysOf] using this)

/-- A name with a non-empty dependency list is declared. -/
theorem mem_keys_of_deps (cs : Deployment) (n d : String)
    (h : d ∈ depsOf cs n) : n ∈ keysOf cs := by
  unfold depsOf at h
  cases hl : lookupDeps cs n with
  | none => rw [hl] at h; cases h
  | some ds => exact lookupDeps_some_mem_keys cs n ds hl

/-- Under duplicate-free keys, membership determines the lookup. -/
theorem lookupDeps_of_mem (cs : Deployment) (n : String) (ds : List String)
    (hk : (keysOf cs).Nodup) (h : (n, ds) ∈ cs) :
    lookupDeps cs n = some ds := by
  induction cs with
  | nil => cases h
  | cons p rest ih =>
    have hk2 : (keysOf rest).Nodup := (List.nodup_cons.mp hk).2
    cases h with
    | head =>
      unfold lookupDeps
      simp
    | tail _ h2 =>
      unfold lookupDeps
      split_ifs with he
      · exfalso
        have hnr : p.1 ∈ keysOf rest := by
          rw [he]
          simp only [keysOf, List.mem_map]
          exact ⟨(n, ds), h2, rfl⟩
        exact (List.nodup_cons.mp hk).1 hnr
      · exact ih hk2 h2

/-- A startable container is accessible along the dependency relation. -/
theorem startable_acc (cs : Deployment) (n : String) (h : Startable cs n) :
    Acc (fun a b => a ∈ depsOf cs b) n := by
  induction h with
  | intro n hk hdeps ih => exact Acc.intro n ih

/-- Dependency paths extend by one edge at the end. -/
theorem depPath_append (cs : Deployment) (a b c : String)
    (p : DepPath cs a b) (h : c ∈ depsOf cs b) : DepPath cs a c := by
  induction p with
  | single h1 => exact DepPath.head h1 (DepPath.single h)
  | head h1 _ ih => exact DepPath.head h1 (ih h)

/-- No accessible node lies on a dependency cycle. -/
theorem acc_no_self_path (cs : Deployment) (n : String)
    (hacc : Acc (fun a b => a ∈ depsOf cs b) n) : ¬ DepPath cs n n := by
  induction hacc with
  | intro n _ ih =>
    intro hp
    cases hp with
    | single hd => exact ih n hd (DepPath.single hd)
    | head hd p => exact ih _ hd (depPath_append cs _ _ _ p hd)

/-- Invariant of one scan pass: every accumulated container is fresh,
declared and startable, and the accumulator stays duplicate-free. -/
theorem scanPassGo_spec (whole : Deployment) (started : List String)
    (hk : (keysOf whole).Nodup)
    (hstart : ∀ x ∈ started, Startable whole x) :
    ∀ (cs : List (String × List String)) (acc : List String),
      (∀ p ∈ cs, p ∈ whole) →
      acc.Nodup →
      (∀ x ∈ acc, x ∉ started) →
      (∀ x ∈ acc, x ∈ keysOf whole) →
      (∀ x ∈ acc, Startable whole x) →
      (scanPassGo started cs acc).Nodup ∧
      (∀ x ∈ scanPassGo started cs acc, x ∉ started) ∧
      (∀ x ∈ scanPassGo started cs acc, x ∈ keysOf whole) ∧
      (∀ x ∈ scanPassGo started cs acc, Startable whole x) := by
  intro cs
  induction cs with
  | nil =>
    intro acc _ h1 h2 h3 h4
    exact ⟨h1, h2, h3, h4⟩
  | cons p rest ih =>
    intro acc hcs h1 h2 h3 h4
    obtain ⟨n, ds⟩ := p
    have hrest : ∀ q ∈ rest, q ∈ whole := fun q hq => hcs q (by simp [hq])
    have hmem : (n, ds) ∈ whole := hcs (n, ds) (by simp)
    unfold scanPassGo
    split_ifs with hin hall
    · exact ih acc hrest h1 h2 h3 h4
    · have hnacc : n ∉ acc := fun hx => hin (by simp [hx])
      have hnst : n ∉ started := fun hx => hin (by simp [hx])
      have hnk : n ∈ keysOf whole := by
        simp only [keysOf, List.mem_map]
        exact ⟨(n, ds), hmem, rfl⟩
      have hdeps : depsOf whole n = ds := by
        unfold depsOf
        rw [lookupDeps_of_mem whole n ds hk hmem]
        rfl
      have hstb : Startable whole n := by
        refine Startable.intro n hnk ?_
        intro d hd
        rw [hdeps] at hd
        have hdin : d ∈ started ++ acc := by
          have := List.all_eq_true.mp hall d hd
          simpa using this
        rcases List.mem_append.mp hdin with hds | hda
        · exact hstart d hds
        · exact h4 d hda
      refine ih (acc ++ [n]) hrest ?_ ?_ ?_ ?_
      · exact List.Nodup.append h1 (List.nodup_singleton n)
          (fun a ha hb => hnacc ((List.mem_singleton.mp hb) ▸ ha))
      · intro x hx
        rcases List.mem_append.mp hx with hxa | hxn
        · exact h2 x hxa
        · have : x = n := by simpa using hxn
          exact this ▸ hnst
      · intro x hx
        rcases List.mem_append.mp hx with hxa | hxn
        · exact h3 x hxa
        · have : x = n := by simpa using hxn
          exact this ▸ hnk
      · intro x hx
        rcases List.mem_append.mp hx with hxa | hxn
        · exact h4 x hxa
        · have : x = n := by simpa using hxn
          exact this ▸ hstb
    · exact ih acc hrest h1 h2 h3 h4

/-- Properties of the containers one pass newly starts. -/
theorem scanPass_spec (cs : Deployment) (started : List String)
    (hk : (keysOf cs).Nodup)
    (hstart : ∀ x ∈ started, Startable cs x) :
    (scanPass cs started).Nodup ∧
    (∀ x ∈ scanPass cs started, x ∉ started) ∧
    (∀ x ∈ scanPass cs started, x ∈ keysOf cs) ∧
    (∀ x ∈ scanPass cs started, Startable cs x) :=
  scanPassGo_spec cs started hk hstart cs [] (fun _ hp => hp)
    List.nodup_nil (by simp) (by simp) (by simp)

/-- The scan loop either stalls with the circular-or-missing error or
ends with every declared container startable. -/
theorem managerStartLoop_stalls (cs : Deployment)
    (hk : (keysOf cs).Nodup) :
    ∀ (fuel : Nat) (started : List String), started.Nodup →
      (∀ x ∈ started, x ∈ keysOf cs) →
      (∀ x ∈ started, Startable cs x) →
      cs.length < fuel + started.length →
      (managerStartLoop cs fuel started).1 =
          some .circularOrMissingDependency ∨
        ∀ n ∈ keysOf cs, Startable cs n := by
  intro fuel
  induction fuel with
  | zero =>
    intro started hnd hsub _ hf
    exfalso
    have hcard : started.toFinset.card = started.length :=
      List.toFinset_card_of_nodup hnd
    have hsubf : started.toFinset ⊆ (keysOf cs).toFinset := by
      intro x hx
      rw [List.mem_toFinset] at *
      exact hsub x hx
    have hle : started.toFinset.card ≤ (keysOf cs).toFinset.card :=
      Finset.card_le_card hsubf
    have hkl : (keysOf cs).toFinset.card ≤ (keysOf cs).length :=
      (keysOf cs).toFinset_card_le
    have hlen : (keysOf cs).length = cs.length := List.length_map cs Prod.fst
    omega
  | succ fuel ih =>
    intro started hnd hsub hstb hf
    by_cases hle : cs.length ≤ started.length
    · right
      have hcard : started.toFinset.card = started.length :=
        List.toFinset_card_of_nodup hnd
      have hsubf : started.toFinset ⊆ (keysOf cs).toFinset := by
        intro x hx
        rw [List.mem_toFinset] at *
        exact hsub x hx
      have hkl : (keysOf cs).toFinset.card ≤ (keysOf cs).length :=
        (keysOf cs).toFinset_card_le
      have hlen : (keysOf cs).length = cs.length := List.length_map cs Prod.fst
      have heq : started.toFinset = (keysOf cs).toFinset :=
        Finset.eq_of_subset_of_card_le hsubf (by omega)
      intro n hn
      have hns : n ∈ started := by
        have h1 : n ∈ started.toFinset := by
          rw [heq, List.mem_toFinset]
          exact hn
        exact List.mem_toFinset.mp h1
      exact hstb n hns
    · obtain ⟨hpn, hpf, hpk, hps⟩ := scanPass_spec cs started hk hstb
      cases hscan : scanPass cs started with
      | nil =>
        left
        simp [managerStartLoop, if_neg hle, hscan]
      | cons n more =>
        have hstep : managerStartLoop cs (fuel + 1) started =
            managerStartLoop cs fuel (started ++ n :: more) := by
          simp [managerStartLoop, if_neg hle, hscan]
        rw [hstep]
        rw [hscan] at hpn hpf hpk hps
        refine ih (started ++ n :: more) ?_ ?_ ?_ ?_
        · exact List.Nodup.append hnd hpn (fun a ha hb => hpf a hb ha)
        · intro x hx
          rcases List.mem_append.mp hx with hxa | hxb
          · exact hsub x hxa
          · exact hpk x hxb
        · intro x hx
          rcases List.mem_append.mp hx with hxa | hxb
          · exact hstb x hxa
          · exact hps x hxb
        · have : 1 ≤ (n :: more).length := by simp
          rw [List.length_append]
          omega

/-- Claim C4: a deployment whose dependency graph has a cycle or a
dependency on an undeclared container makes `Manager.Start` fail with
`CircularOrMissingDependency` (container starts themselves modelled as
succeeding), and on the two-container deployment where A depends on B
and B depends on A — in either map order — no container is started
before the error is returned. -/
theorem manager_start_circular (cs : Deployment)
    (hk : (keysOf cs).Nodup) (h : HasCycle cs ∨ HasMissingDep cs) :
    (managerStart cs).1 = some .circularOrMissingDependency ∧
    managerStart [("A", ["B"]), ("B", ["A"])] =
      (some .circularOrMissingDependency, []) ∧
    managerStart [("B", ["A"]), ("A", ["B"])] =
      (some .circularOrMissingDependency, []) := by
  refine ⟨?_, by decide, by decide⟩
  unfold managerStart
  rcases managerStartLoop_stalls cs hk (cs.length + 1) [] List.nodup_nil
      (by simp) (by simp) (by omega) with hl | hr
  · exact hl
  · exfalso
    cases h with
    | inl hcyc =>
      obtain ⟨n, hp⟩ := hcyc
      have hnk : n ∈ keysOf cs := by
        cases hp with
        | single h1 => exact mem_keys_of_deps cs n _ h1
        | head h1 _ => exact mem_keys_of_deps cs n _ h1
      exact acc_no_self_path cs n (startable_acc cs n (hr n hnk)) hp
    | inr hmiss =>
      obtain ⟨n, hnk, d, hd, hdk⟩ := hmiss
      cases hr n hnk with
      | intro _ _ hdeps =>
        cases hdeps d hd with
        | intro _ hk2 _ => exact hdk hk2

/-- Witness for `manager_start_circular` on the A⇔B deployment. -/
theorem manager_start_circular_witness :
    (managerStart [("A", ["B"]), ("B", ["A"])]).1 =
      some .circularOrMissingDependency :=
  (manager_start_circular [("A", ["B"]), ("B", ["A"])] (by decide)
    (Or.inl ⟨"A",
      @DepPath.head [("A", ["B"]), ("B", ["A"])] "A" "B" "A" (by decide)
        (@DepPath.single [("A", ["B"]), ("B", ["A"])] "B" "A" (by decide))⟩)).1

/-! ## `Manager.getStopOrder` (claim C5)

`getStopOrder` runs a DFS over `depends_on` from every container,
visiting dependencies before appending a node (post-order), and reverses
the result; `Manager.Stop` then stops containers in that reversed order.
The Go recursion terminates because the visited set is bounded by the
finitely many names occurring in the deployment; the embedding makes
that bound explicit as fuel consumed only when descending into an
unvisited node, with `|universe| + 1` units available — more than the
maximal descent depth, so the zero-fuel branch is unreachable (the
sufficiency is part of the proofs below). -/

/-- Every name that can ever be visited: the declared names and every
name occurring in a dependency list. -/
def universeL (cs : Deployment) : List String :=
  keysOf cs ++ (cs.map Prod.snd).flatten

/-- The DFS `visit` closure: state is (visited, order).  An unvisited
node is marked, its dependencies are visited in list order, and the node
is appended to the order. -/
def visitK (cs : Deployment) :
    Nat → String → List String × List String → List String × List String
  | 0, _, st => st
  | fuel + 1, n, st =>
    if n ∈ st.1 then st
    else
      let st1 := (depsOf cs n).foldl
        (fun acc d => visitK cs fuel d acc) (n :: st.1, st.2)
      (st1.1, st1.2 ++ [n])

/-- Visiting a list of nodes in order (the `for` loops of the source). -/
def visitFold (cs : Deployment) (fuel : Nat) (ns : List String)
    (st : List String × List String) : List String × List String :=
  ns.foldl (fun acc d => visitK cs fuel d acc) st

/-- `getStopOrder`: DFS post-order from every declared container, then
reversed. -/
def getStopOrder (cs : Deployment) : List String :=
  (visitFold cs ((universeL cs).length + 1) (keysOf cs) ([], [])).2.reverse

/-- `occursBefore l a b`: the first occurrence of `a` in `l` is followed,
strictly later, by an occurrence of `b`. -/
def occursBefore : List String → String → String → Bool
  | [], _, _ => false
  | x :: rest, a, b => if x = a then decide (b ∈ rest) else occursBefore rest a b

/-- A successful lookup is a membership. -/
theorem lookupDeps_some_mem (cs : Deployment) (n : String)
    (ds : List String) (h : lookupDeps cs n = some ds) : (n, ds) ∈ cs := by
  induction cs with
  | nil => cases h
  | cons p rest ih =>
    unfold lookupDeps at h
    split_ifs at h with he
    · have hds : ds = p.2 := by
        injection h with h2
        exact h2.symm
      have hp : (n, ds) = p := by
        rw [hds, ← he]
      rw [hp]
      exact List.mem_cons_self p rest
    · exact List.mem_cons_of_mem p (ih h)

/-- Dependency names lie in the universe. -/
theorem deps_sub_universe (cs : Deployment) (n d : String)
    (h : d ∈ depsOf cs n) : d ∈ universeL cs := by
  unfold depsOf at h
  cases hl : lookupDeps cs n with
  | none => rw [hl] at h; cases h
  | some ds =>
    rw [hl] at h
    have hmem : (n, ds) ∈ cs := lookupDeps_some_mem cs n ds hl
    unfold universeL
    refine List.mem_append.mpr (Or.inr ?_)
    rw [List.mem_flatten]
    exact ⟨ds, List.mem_map.mpr ⟨(n, ds), hmem, rfl⟩, h⟩

/-- Declared names lie in the universe. -/
theorem keys_sub_universe (cs : Deployment) (n : String)
    (h : n ∈ keysOf cs) : n ∈ universeL cs :=
  List.mem_append.mpr (Or.inl h)

/-- `occursBefore` survives appending on the right. -/
theorem occursBefore_append_left (l l2 : List String) (a b : String)
    (h : occursBefore l a b = true) :
    occursBefore (l ++ l2) a b = true := by
  induction l with
  | nil => simp [occursBefore] at h
  | cons x rest ih =>
    rw [List.cons_append]
    simp only [occursBefore] at h ⊢
    split_ifs at h ⊢ with hx
    · have hb : b ∈ rest := by simpa using h
      simp [List.mem_append, hb]
    · exact ih h

/-- Any earlier element is `occursBefore` a newly appended one. -/
theorem occursBefore_append_last (l : List String) (a b : String)
    (h : a ∈ l) : occursBefore (l ++ [b]) a b = true := by
  induction l with
  | nil => cases h
  | cons x rest ih =>
    rw [List.cons_append]
    simp only [occursBefore]
    split_ifs with hx
    · simp
    · have hr : a ∈ rest := by
        rcases List.mem_cons.mp h with h1 | h2
        · exact absurd h1.symm hx
        · exact h2
      exact ih hr

/-- An element of a list splits it. -/
theorem mem_split_list (l : List String) (b : String) (h : b ∈ l) :
    ∃ s t, l = s ++ b :: t := by
  induction l with
  | nil => cases h
  | cons x rest ih =>
    cases h with
    | head => exact ⟨[], rest, rfl⟩
    | tail _ h2 =>
      obtain ⟨s, t, hst⟩ := ih h2
      exact ⟨x :: s, t, by rw [hst]; rfl⟩

/-- `occursBefore` yields a three-way split of the list. -/
theorem split_of_occursBefore (l : List String) (a b : String)
    (h : occursBefore l a b = true) :
    ∃ l1 l2 l3, l = l1 ++ a :: l2 ++ b :: l3 := by
  induction l with
  | nil => simp [occursBefore] at h
  | cons x rest ih =>
    simp only [occursBefore] at h
    split_ifs at h with hx
    · have hb : b ∈ rest := by simpa using h
      obtain ⟨l2, l3, hsp⟩ := mem_split_list rest b hb
      exact ⟨[], l2, l3, by rw [hx, hsp]; rfl⟩
    · obtain ⟨l1, l2, l3, hsp⟩ := ih h
      exact ⟨x :: l1, l2, l3, by rw [hsp]; rfl⟩

/-- On a duplicate-free list, a three-way split certifies
`occursBefore`. -/
theorem occursBefore_of_split (l l1 l2 l3 : List String) (a b : String)
    (hnd : l.Nodup) (h : l = l1 ++ a :: l2 ++ b :: l3) :
    occursBefore l a b = true := by
  induction l1 generalizing l with
  | nil =>
    subst h
    rw [List.nil_append]
    simp only [occursBefore]
    simp
  | cons x l1' ih =>
    subst h
    rw [List.cons_append]
    have hnd2 : (l1' ++ a :: l2 ++ b :: l3).Nodup := by
      rw [List.cons_append] at hnd
      exact (List.nodup_cons.mp hnd).2
    have hxa : ¬ x = a := by
      intro hxeq
      rw [List.cons_append] at hnd
      refine (List.nodup_cons.mp hnd).1 ?_
      rw [hxeq]
      simp
    simp only [occursBefore]
    rw [if_neg hxa]
    exact ih _ hnd2 rfl

/-- On a duplicate-free list, `occursBefore` flips under reversal. -/
theorem occursBefore_reverse (l : List String) (a b : String)
    (hnd : l.Nodup) (h : occursBefore l a b = true) :
    occursBefore l.reverse b a = true := by
  obtain ⟨l1, l2, l3, hsp⟩ := split_of_occursBefore l a b h
  have hrev : l.reverse = l3.reverse ++ b :: l2.reverse ++ a :: l1.reverse := by
    rw [hsp]
    simp [List.reverse_append, List.append_assoc]
  exact occursBefore_of_split l.reverse l3.reverse l2.reverse l1.reverse b a
    (List.nodup_reverse.mpr hnd) hrev

/-- How many names of `l` are not in `v`. -/
def countNotIn : List String → List String → Nat
  | [], _ => 0
  | x :: rest, v => (if x ∈ v then 0 else 1) + countNotIn rest v

/-- Count of universe names not yet visited: the fuel budget. -/
def unvisitedCount (cs : Deployment) (v : List String) : Nat :=
  countNotIn (universeL cs) v

/-- Growing the visited set cannot increase the unvisited count. -/
theorem countNotIn_mono (l v v' : List String)
    (hsub : ∀ x ∈ v, x ∈ v') : countNotIn l v' ≤ countNotIn l v := by
  induction l with
  | nil => simp [countNotIn]
  | cons u us ih =>
    unfold countNotIn
    by_cases h1 : u ∈ v'
    · simp only [if_pos h1]
      omega
    · have h2 : u ∉ v := fun hu => h1 (hsub u hu)
      simp only [if_neg h1, if_neg h2]
      omega

/-- Visiting a fresh universe name strictly shrinks the unvisited
count. -/
theorem countNotIn_cons_lt (l v : List String) (n : String)
    (hn : n ∈ l) (hv : n ∉ v) :
    countNotIn l (n :: v) < countNotIn l v := by
  induction l with
  | nil => cases hn
  | cons u us ih =>
    unfold countNotIn
    by_cases hu : u = n
    · subst hu
      have hmono : countNotIn us (u :: v) ≤ countNotIn us v :=
        countNotIn_mono us v (u :: v) (fun x hx => List.mem_cons_of_mem u hx)
      simp only [if_pos (List.mem_cons_self u v), if_neg hv]
      omega
    · have hn' : n ∈ us := by
        rcases List.mem_cons.mp hn with h1 | h2
        · exact absurd h1.symm hu
        · exact h2
      by_cases h2 : u ∈ v
      · simp only [if_pos (List.mem_cons_of_mem n h2), if_pos h2]
        have := ih hn'
        omega
      · have h3 : u ∉ n :: v := by
          intro hc
          rcases List.mem_cons.mp hc with h4 | h4
          · exact hu h4
          · exact h2 h4
        simp only [if_neg h2, if_neg h3]
        have := ih hn'
        omega

/-- The key ordering invariant of the DFS order: in `o`, every
dependency of an emitted container was emitted earlier. -/
def Good (cs : Deployment) (o : List String) : Prop :=
  ∀ m ∈ o, ∀ d ∈ depsOf cs m, occursBefore o d m = true

/-- What one DFS step (or a run of steps) does to the state `(v, o)`:
the visited set only grows, the order is only appended to and stays
duplicate-free, emitted names are visited, the set of "gray" names
(visited but not yet emitted — the current descent chain) is exactly
preserved, and the ordering invariant is maintained. -/
structure StepConcl (cs : Deployment) (v o : List String)
    (st : List String × List String) : Prop where
  visitedGrows : ∀ x ∈ v, x ∈ st.1
  orderExtends : ∃ delta, st.2 = o ++ delta
  grayPreserved : ∀ x, (x ∈ st.1 ∧ x ∉ st.2) ↔ (x ∈ v ∧ x ∉ o)
  orderVisited : ∀ x ∈ st.2, x ∈ st.1
  orderNodup : st.2.Nodup
  orderGood : Good cs st.2

/-- `StepConcl` composes along consecutive runs. -/
theorem StepConcl.comp (cs : Deployment) (v o : List String)
    (st1 st2 : List String × List String)
    (h1 : StepConcl cs v o st1) (h2 : StepConcl cs st1.1 st1.2 st2) :
    StepConcl cs v o st2 := by
  refine ⟨?_, ?_, ?_, h2.orderVisited, h2.orderNodup, h2.orderGood⟩
  · exact fun x hx => h2.visitedGrows x (h1.visitedGrows x hx)
  · obtain ⟨d1, hd1⟩ := h1.orderExtends
    obtain ⟨d2, hd2⟩ := h2.orderExtends
    exact ⟨d1 ++ d2, by rw [hd2, hd1, List.append_assoc]⟩
  · exact fun x => (h2.grayPreserved x).trans (h1.grayPreserved x)

/-- The inductive statement about a single `visitK` call at a given fuel
level: with enough fuel for the unvisited part of the universe, a call on
a universe name whose rank is below every gray name's rank satisfies
`StepConcl` and marks the name visited. -/
def VisitP (cs : Deployment) (rank : String → Nat) (fuel : Nat) : Prop :=
  ∀ (n : String) (v o : List String),
    n ∈ universeL cs →
    unvisitedCount cs v < fuel →
    (∀ g ∈ v, g ∉ o → rank n < rank g) →
    (∀ x ∈ o, x ∈ v) →
    o.Nodup →
    Good cs o →
    StepConcl cs v o (visitK cs fuel n (v, o)) ∧
      n ∈ (visitK cs fuel n (v, o)).1

/-- The corresponding statement about visiting a list of names in
order. -/
def FoldP (cs : Deployment) (rank : String → Nat) (fuel : Nat) : Prop :=
  ∀ (ns : List String) (v o : List String),
    (∀ x ∈ ns, x ∈ universeL cs) →
    unvisitedCount cs v < fuel →
    (∀ g ∈ v, g ∉ o → ∀ m ∈ ns, rank m < rank g) →
    (∀ x ∈ o, x ∈ v) →
    o.Nodup →
    Good cs o →
    StepConcl cs v o (visitFold cs fuel ns (v, o)) ∧
      ∀ x ∈ ns, x ∈ (visitFold cs fuel ns (v, o)).1

/-- A trivial (empty) run satisfies `StepConcl`. -/
theorem StepConcl.refl (cs : Deployment) (v o : List String)
    (hsub : ∀ x ∈ o, x ∈ v) (hnd : o.Nodup) (hgood : Good cs o) :
    StepConcl cs v o (v, o) :=
  ⟨fun _ hx => hx, ⟨[], by simp⟩, fun _ => Iff.rfl, hsub, hnd, hgood⟩

/-- Visiting a list reduces to visiting the head then the rest. -/
theorem visitFold_cons (cs : Deployment) (fuel : Nat) (n : String)
    (ns : List String) (st : List String × List String) :
    visitFold cs fuel (n :: ns) st =
      visitFold cs fuel ns (visitK cs fuel n st) := by
  simp [visitFold, List.foldl_cons]

/-- Lift `VisitP` through a list of visits. -/
theorem foldP_of_visitP (cs : Deployment) (rank : String → Nat)
    (fuel : Nat) (hP : VisitP cs rank fuel) : FoldP cs rank fuel := by
  intro ns
  induction ns with
  | nil =>
    intro v o _ _ _ hsub hnd hgood
    exact ⟨StepConcl.refl cs v o hsub hnd hgood, by intro x hx; cases hx⟩
  | cons n rest ih =>
    intro v o hU hfuel hgray hsub hnd hgood
    obtain ⟨sc1, hn1⟩ := hP n v o (hU n (List.mem_cons_self n rest)) hfuel
      (fun g hg hgo => hgray g hg hgo n (List.mem_cons_self n rest))
      hsub hnd hgood
    have hfuel1 : unvisitedCount cs (visitK cs fuel n (v, o)).1 < fuel :=
      lt_of_le_of_lt
        (countNotIn_mono (universeL cs) v _ sc1.visitedGrows) hfuel
    have hgray1 : ∀ g ∈ (visitK cs fuel n (v, o)).1,
        g ∉ (visitK cs fuel n (v, o)).2 → ∀ m ∈ rest, rank m < rank g := by
      intro g hg hgo m hm
      have hgv := (sc1.grayPreserved g).mp ⟨hg, hgo⟩
      exact hgray g hgv.1 hgv.2 m (List.mem_cons_of_mem n hm)
    obtain ⟨sc2, hrest⟩ := ih (visitK cs fuel n (v, o)).1
      (visitK cs fuel n (v, o)).2
      (fun x hx => hU x (List.mem_cons_of_mem n hx)) hfuel1 hgray1
      sc1.orderVisited sc1.orderNodup sc1.orderGood
    rw [visitFold_cons]
    refine ⟨StepConcl.comp cs v o _ _ sc1 sc2, ?_⟩
    intro x hx
    rcases List.mem_cons.mp hx with h1 | h1
    · exact h1 ▸ sc2.visitedGrows _ hn1
    · exact hrest x h1

/-- The unvisited branch of `visitK` at positive fuel. -/
theorem visitK_succ_not_mem (cs : Deployment) (fuel : Nat) (n : String)
    (v o : List String) (hin : n ∉ v) :
    visitK cs (fuel + 1) n (v, o) =
      ((visitFold cs fuel (depsOf cs n) (n :: v, o)).1,
       (visitFold cs fuel (depsOf cs n) (n :: v, o)).2 ++ [n]) := by
  simp only [visitK, visitFold]
  rw [if_neg hin]

/-- The visited branch of `visitK` at positive fuel. -/
theorem visitK_succ_mem (cs : Deployment) (fuel : Nat) (n : String)
    (v o : List String) (hin : n ∈ v) :
    visitK cs (fuel + 1) n (v, o) = (v, o) := by
  simp only [visitK]
  rw [if_pos hin]

/-- The successor step of the fuel induction. -/
theorem visitP_succ (cs : Deployment) (rank : String → Nat)
    (hrank : ∀ n d, d ∈ depsOf cs n → rank d < rank n) (fuel : Nat)
    (hF : FoldP cs rank fuel) : VisitP cs rank (fuel + 1) := by
  intro n v o hU hfuel hgray hsub hnd hgood
  by_cases hin : n ∈ v
  · rw [visitK_succ_mem cs fuel n v o hin]
    exact ⟨StepConcl.refl cs v o hsub hnd hgood, hin⟩
  · rw [visitK_succ_not_mem cs fuel n v o hin]
    have hfuel1 : unvisitedCount cs (n :: v) < fuel := by
      have h1 := countNotIn_cons_lt (universeL cs) v n hU hin
      have h2 : unvisitedCount cs v < fuel + 1 := hfuel
      unfold unvisitedCount at *
      omega
    have hgray1 : ∀ g ∈ n :: v, g ∉ o → ∀ m ∈ depsOf cs n,
        rank m < rank g := by
      intro g hg hgo m hm
      rcases List.mem_cons.mp hg with h1 | h1
      · exact h1 ▸ hrank n m hm
      · exact lt_trans (hrank n m hm) (hgray g h1 hgo)
    obtain ⟨sc, hdeps1⟩ := hF (depsOf cs n) (n :: v) o
      (fun d hd => deps_sub_universe cs n d hd) hfuel1 hgray1
      (fun x hx => List.mem_cons_of_mem n (hsub x hx)) hnd hgood
    have hno : n ∉ o := fun h => hin (hsub n h)
    have hnst1 : n ∈ (visitFold cs fuel (depsOf cs n) (n :: v, o)).1 :=
      sc.visitedGrows n (List.mem_cons_self n v)
    have hnot1 : n ∉ (visitFold cs fuel (depsOf cs n) (n :: v, o)).2 :=
      ((sc.grayPreserved n).mpr ⟨List.mem_cons_self n v, hno⟩).2
    refine ⟨⟨?_, ?_, ?_, ?_, ?_, ?_⟩, hnst1⟩
    · exact fun x hx => sc.visitedGrows x (List.mem_cons_of_mem n hx)
    · obtain ⟨d1, hd1⟩ := sc.orderExtends
      exact ⟨d1 ++ [n], by rw [hd1, List.append_assoc]⟩
    · intro x
      constructor
      · rintro ⟨hx1, hx2⟩
        have hx3 : x ∉ (visitFold cs fuel (depsOf cs n) (n :: v, o)).2 :=
          fun hc => hx2 (List.mem_append_left _ hc)
        have hx4 : x ≠ n := fun hc =>
          hx2 (List.mem_append_right _ (by rw [hc]; simp))
        have hx5 := (sc.grayPreserved x).mp ⟨hx1, hx3⟩
        rcases List.mem_cons.mp hx5.1 with h1 | h1
        · exact absurd h1 hx4
        · exact ⟨h1, hx5.2⟩
      · rintro ⟨hxv, hxo⟩
        have hx5 := (sc.grayPreserved x).mpr
          ⟨List.mem_cons_of_mem n hxv, hxo⟩
        have hx4 : x ≠ n := fun hc => hin (hc ▸ hxv)
        refine ⟨hx5.1, ?_⟩
        intro hc
        rcases List.mem_append.mp hc with h1 | h1
        · exact hx5.2 h1
        · exact hx4 (by simpa using h1)
    · intro x hx
      rcases List.mem_append.mp hx with h1 | h1
      · exact sc.orderVisited x h1
      · exact (by simpa using h1 : x = n) ▸ hnst1
    · exact List.Nodup.append sc.orderNodup (List.nodup_singleton n)
        (fun a ha hb => hnot1 ((List.mem_singleton.mp hb) ▸ ha))
    · intro m hm d hd
      rcases List.mem_append.mp hm with h1 | h1
      · exact occursBefore_append_left _ [n] d m (sc.orderGood m h1 d hd)
      · have hmn : m = n := by simpa using h1
        subst hmn
        have hdst1 : d ∈ (visitFold cs fuel (depsOf cs m) (m :: v, o)).1 :=
          hdeps1 d hd
        have hdord : d ∈ (visitFold cs fuel (depsOf cs m) (m :: v, o)).2 := by
          by_contra hdno
          have hx5 := (sc.grayPreserved d).mp ⟨hdst1, hdno⟩
          rcases List.mem_cons.mp hx5.1 with h2 | h2
          · exact absurd (h2 ▸ hrank m d hd) (lt_irrefl _)
          · exact absurd (hrank m d hd)
              (not_lt_of_gt (hgray d h2 hx5.2))
        exact occursBefore_append_last _ d m hdord

/-- `VisitP` holds at every fuel level. -/
theorem visitP_all (cs : Deployment) (rank : String → Nat)
    (hrank : ∀ n d, d ∈ depsOf cs n → rank d < rank n) :
    ∀ fuel, VisitP cs rank fuel := by
  intro fuel
  induction fuel with
  | zero =>
    intro n v o _ hfuel _ _ _ _
    exact absurd hfuel (Nat.not_lt_zero _)
  | succ fuel ih =>
    exact visitP_succ cs rank hrank fuel (foldP_of_visitP cs rank fuel ih)

/-- The whole universe is unvisited at the start. -/
theorem countNotIn_nil_right (l : List String) :
    countNotIn l [] = l.length := by
  induction l with
  | nil => rfl
  | cons x rest ih =>
    simp [countNotIn, ih]
    omega

/-- Claim C5: for a deployment whose dependency graph is acyclic (i.e.
admits a rank function strictly decreasing along `depends_on` edges — a
topological ranking exists exactly for DAGs), the stop order computed by
`Manager.getStopOrder` (DFS post-order over `depends_on`, reversed) puts
every container strictly before every container it depends on; this is
the order `Manager.Stop` uses. -/
theorem stop_order_reverse_topological (cs : Deployment)
    (rank : String → Nat)
    (hrank : ∀ n d, d ∈ depsOf cs n → rank d < rank n) :
    ∀ n ∈ keysOf cs, ∀ d ∈ depsOf cs n,
      occursBefore (getStopOrder cs) n d = true := by
  intro n hn d hd
  have hF := foldP_of_visitP cs rank ((universeL cs).length + 1)
    (visitP_all cs rank hrank ((universeL cs).length + 1))
  have hfuel0 : unvisitedCount cs [] < (universeL cs).length + 1 := by
    unfold unvisitedCount
    rw [countNotIn_nil_right]
    omega
  obtain ⟨sc, hkeys⟩ := hF (keysOf cs) [] []
    (fun x hx => keys_sub_universe cs x hx) hfuel0
    (by intro g hg; cases hg) (by intro x hx; cases hx) List.nodup_nil
    (by intro m hm; cases hm)
  have hvo : ∀ x ∈ (visitFold cs ((universeL cs).length + 1)
      (keysOf cs) ([], [])).1,
      x ∈ (visitFold cs ((universeL cs).length + 1) (keysOf cs) ([], [])).2 := by
    intro x hx
    by_contra hxo
    exact absurd ((sc.grayPreserved x).mp ⟨hx, hxo⟩).1 (by simp)
  have hnord : n ∈ (visitFold cs ((universeL cs).length + 1)
      (keysOf cs) ([], [])).2 := hvo n (hkeys n hn)
  have hob := sc.orderGood n hnord d hd
  have hrev := occursBefore_reverse _ d n sc.orderNodup hob
  exact hrev

/-- Witness for `stop_order_reverse_topological` on the two-container
deployment of the spec's dependency scenario: `web` depends on `db`, and
the stop order stops `web` strictly before `db`. -/
theorem stop_order_reverse_topological_witness :
    occursBefore (getStopOrder [("web", ["db"]), ("db", [])])
      "web" "db" = true := by
  refine stop_order_reverse_topological [("web", ["db"]), ("db", [])]
    (fun x => if x = "web" then 1 else 0) ?_ "web" (by decide) "db" ?_
  · intro n d hd
    have hn := mem_keys_of_deps _ _ _ hd
    have hk : n = "web" ∨ n = "db" := by
      simpa [keysOf] using hn
    rcases hk with h | h
    · subst h
      have hdep : depsOf [("web", ["db"]), ("db", [])] "web" = ["db"] := by
        decide
      rw [hdep] at hd
      have : d = "db" := by simpa using hd
      subst this
      decide
    · subst h
      have hdep : depsOf [("web", ["db"]), ("db", [])] "db" = [] := by
        decide
      rw [hdep] at hd
      cases hd
  · decide

end Kitty
